import Mathlib

/-!
Verification of the FontCrawler library (font-crawler-js).

The development shallowly embeds the JavaScript sources:

* `src/font-crawler.js` — the main revision: strict include/exclude element
  filtering, polymorphic pseudo-element specifications, a time-budgeted
  animation-frame scheduler with a busy check and cancellation (`clear`).
* `src/unnamed/part_000` — two earlier revisions of the same library:
  revision A (count-budgeted `asyncMax` scheduler, completion callback
  invoked synchronously inside the final frame) and revision B
  (time-budgeted, simple `useTextNodesOnly` filter, `_addPseudoEntries`,
  and a `_crawlAsyncCallback` without the `entries.length` guard).

Pure functions of the source become Lean functions; the host environment
(computed styles, selector matching, text nodes, animation frames) is
passed in explicitly: an element carries its selector-matching function,
its child nodes and its computed style, and the animation-frame clock is a
stream of timestamps.  JavaScript objects used as maps become association
lists that preserve key insertion order.  Code that can throw returns
`Except`.
-/

/-- Computed style triple returned by `_getComputedStyle` followed by the
three `getPropertyValue` reads in `_handleElement`. -/
structure Css where
  fontFamily : String
  fontWeight : String
  fontStyle : String
deriving DecidableEq, Repr

/-- Child node of an element: node type (`Node.TEXT_NODE = 3`) and text
content, as read by `_hasTextNodeChild`. -/
structure ChildNode where
  nodeType : Nat
  textContent : String
deriving DecidableEq, Repr

/-- Host-tree element.  The opaque host APIs the crawler calls on an element
are carried as fields: `selMatches` is `element.matches(selector)`,
`childNodes` and `textContent` back `_hasTextNodeChild` (the parent of a
child node of the element is the element itself), and `style pseudo` is the
computed style `getComputedStyle(element, pseudo)`. -/
structure Elem where
  selMatches : String → Bool
  childNodes : List ChildNode
  textContent : String
  style : Option String → Css

/-- Entry: pair of element and optional pseudo-element selector, as built by
`_mapElementsAsEntries` and the pseudo-element expansion. -/
abbrev Entry := Elem × Option String

/-- Font-usage map.  A JavaScript object keyed by font-family name; modelled
as an association list that preserves key insertion order. -/
abbrev Source := List (String × List String)

/-- Keys of the font-usage map, in insertion order. -/
def sourceKeys (s : Source) : List String := s.map Prod.fst

/-- Lookup of `source[fam]` (also models the `fam in source` test via
`Option.isSome`). -/
def getFam : Source → String → Option (List String)
  | [], _ => none
  | (k, v) :: rest, f => if k == f then some v else getFam rest f

/-- Assignment `source[fam] = v` on a JavaScript object: replaces the value
of an existing key in place, appends a fresh key at the end. -/
def setFam : Source → String → List String → Source
  | [], f, v => [(f, v)]
  | (k, w) :: rest, f, v =>
      if k == f then (k, v) :: rest else (k, w) :: setFam rest f v

/-- Structural lexicographic comparison of character lists, the executable
model of the string comparison used by JavaScript's default
`Array.prototype.sort()` (ASCII tokens such as "400"/"400i" compare the same
way under JavaScript code-unit order and Lean's `String` order). -/
def charsLt : List Char → List Char → Bool
  | [], [] => false
  | [], _ :: _ => true
  | _ :: _, [] => false
  | a :: as, b :: bs =>
      if a < b then true else if b < a then false else charsLt as bs

/-- Executable string comparison `a ≤ b` (see `strLe_iff_le`). -/
def strLe (a b : String) : Bool := !charsLt b.data a.data

/-- Comparator relation used by the sort. -/
def strLeRel (a b : String) : Prop := strLe a b = true

instance : DecidableRel strLeRel :=
  fun a b => inferInstanceAs (Decidable (strLe a b = true))

/-- Default `Array.prototype.sort()` on an array of strings: sorts by the
lexicographic string order. -/
def jsSort (l : List String) : List String := List.insertionSort strLeRel l

/-- Variant token built by `_handleSource`:
`css.fontWeight + (css.fontStyle === "normal" ? "" : "i")`. -/
def variantToken (weight style : String) : String :=
  weight ++ (if style == "normal" then "" else "i")

/-- Test of `this._isArray(exclude) && exclude.indexOf(css.fontFamily) !== -1`
in `_handleSource` of `src/font-crawler.js` (`excludeFontFamilies` option). -/
def famExcluded : Option (List String) → String → Bool
  | some ex, f => ex.contains f
  | none, _ => false

/-- Core of `_handleSource` (all revisions): ensure the family key exists
(inserted with `[]` on first sight), then push the variant token if absent
and re-sort the family's token list. -/
def handleSourceCore (css : Css) (source : Source) : Source :=
  let tok := variantToken css.fontWeight css.fontStyle
  let source1 :=
    if (getFam source css.fontFamily).isSome then source
    else setFam source css.fontFamily []
  match getFam source1 css.fontFamily with
  | some cur =>
      if tok ∈ cur then source1
      else setFam source1 css.fontFamily (jsSort (cur ++ [tok]))
  | none => source1

/-- `_handleSource` of `src/font-crawler.js`: drop entries whose family is in
the configured exclusion list, otherwise record the variant. -/
def handleSource (excl : Option (List String)) (css : Css) (source : Source) :
    Source :=
  if famExcluded excl css.fontFamily then source else handleSourceCore css source

/-- Folding a sequence of sampled css triples into the map from the empty
object, as the crawl drivers do. -/
def aggregate (excl : Option (List String)) (ops : List Css) : Source :=
  ops.foldl (fun s css => handleSource excl css s) []

/-- Well-formedness of the font-usage map: keys are pairwise distinct and
every family's token list is sorted with no duplicates. -/
def SourceInv (s : Source) : Prop :=
  (sourceKeys s).Nodup ∧ ∀ p ∈ s, p.2.Sorted (· ≤ ·) ∧ p.2.Nodup

/-- ASCII whitespace, the characters relevant to the trimming and the
`\s*,\s*` splitting performed by the crawler (the sources only ever meet
ASCII whitespace). -/
def isJsSpace (c : Char) : Bool :=
  c == ' ' || c == '\t' || c == '\n' || c == '\r' ||
    c == Char.ofNat 11 || c == Char.ofNat 12

/-- Drop leading whitespace of a character list. -/
def trimLeftChars (l : List Char) : List Char := l.dropWhile isJsSpace

/-- Drop trailing whitespace of a character list. -/
def trimRightChars (l : List Char) : List Char :=
  (trimLeftChars l.reverse).reverse

/-- Drop whitespace on both ends of a character list. -/
def trimBothChars (l : List Char) : List Char :=
  trimRightChars (trimLeftChars l)

/-- Executable model of `String.prototype.trim()`. -/
def jsTrim (s : String) : String := String.mk (trimBothChars s.data)

/-- Split a character list at every comma (`String.prototype.split(",")`
at character level). -/
def splitCommaChars : List Char → List Char → List (List Char)
  | [], acc => [acc.reverse]
  | c :: rest, acc =>
      if c == ',' then acc.reverse :: splitCommaChars rest []
      else splitCommaChars rest (c :: acc)

/-- Trimming of the pieces after the first: a middle piece loses the
whitespace on both sides (it was adjacent to two commas), the last piece
only its leading whitespace. -/
def trimPiecesMid : List (List Char) → List (List Char)
  | [] => []
  | [q] => [trimLeftChars q]
  | q :: rest => trimBothChars q :: trimPiecesMid rest

/-- `usePseudoElement.split(/\s*,\s*/)` of `_usePseudoElementEntries`:
split at commas, consuming the whitespace around each comma (whitespace not
adjacent to a comma, i.e. at the two ends of the whole string, is kept). -/
def splitDelim (s : String) : List String :=
  (match splitCommaChars s.data [] with
    | [] => []
    | [p] => [p]
    | p :: rest => trimRightChars p :: trimPiecesMid rest).map String.mk

/-- Pseudo-name normalization of `_usePseudoElementEntries`:
`"::" + pseudo.replace(/^:+/, "")` — strip leading colons, put the
double-colon form in front. -/
def normalizePseudo (p : String) : String :=
  "::" ++ String.mk (p.data.dropWhile (fun c => c == ':'))

/-- Return value of a `usePseudoElement` callback: the source accepts a
string (split like the option itself), an array, or anything else
(silently ignored). -/
inductive PseudoRet where
  | str (s : String)
  | list (l : List String)
  | other

/-- The polymorphic `usePseudoElement` option of `src/font-crawler.js`:
`null`, a comma-delimited string, an array of names, or a per-element
callback. -/
inductive PseudoSpec where
  | none
  | str (s : String)
  | list (l : List String)
  | fn (f : Elem → Option String → PseudoRet)

/-- Configuration of `src/font-crawler.js` (`_defaults`, overridable option
by option). -/
structure Options where
  querySelector : String := "*"
  includeTarget : Bool := true
  includeElements : Option String :=
    some "input:not([type=\"checkbox\"]):not([type=\"hidden\"]):not([type=\"radio\"]):not([type=\"range\"]),textarea"
  excludeElements : Option String := some "base,head,link,meta,script,style,title"
  usePseudoElement : PseudoSpec := PseudoSpec.none
  filter : Option (Elem → Option String → Bool) := none
  excludeFontFamilies : Option (List String) := none
  asyncIntervalDuration : Rat := 16

/-- JavaScript truthiness of a string-or-null option (`null` and the empty
string are falsy). -/
def strOptTruthy : Option String → Bool
  | Option.none => false
  | some s => !(s == "")

/-- `element.matches(selector)` where the selector option may be null (the
call is only reached when the option is truthy). -/
def matchesOpt (e : Elem) : Option String → Bool
  | Option.none => false
  | some s => e.selMatches s

/-- `_hasTextNodeChild` of `src/font-crawler.js` (strict check): scan the
child nodes for a text node whose trimmed content is non-empty, or — when
that trim is empty — whose parent's (the element's) trimmed text content is
non-empty. -/
def hasTextNodeChild (e : Elem) : Bool :=
  e.childNodes.any fun c =>
    c.nodeType == 3 &&
      (!(jsTrim c.textContent == "") || !(jsTrim e.textContent == ""))

/-- Body of the filter in `_filterElements` of `src/font-crawler.js`: keep
on an `includeElements` match, drop on an `excludeElements` match, otherwise
require a meaningful text-node child. -/
def keepElement (inc exc : Option String) (e : Elem) : Bool :=
  if strOptTruthy inc && matchesOpt e inc then true
  else if strOptTruthy exc && matchesOpt e exc then false
  else hasTextNodeChild e

/-- `_filterElements` of `src/font-crawler.js`. -/
def filterElements (opts : Options) (elements : List Elem) : List Elem :=
  elements.filter (keepElement opts.includeElements opts.excludeElements)

/-- `_mapElementsAsEntries`: every surviving element becomes the base entry
`[element, null]`. -/
def mapElementsAsEntries (elements : List Elem) : List Entry :=
  elements.map fun e => (e, Option.none)

/-- Expansion of one entry: the base entry followed by one pseudo entry per
configured pseudo name, each normalized. -/
def expandWith (ps : List String) (entry : Entry) : List Entry :=
  entry :: ps.map fun p => (entry.1, some (normalizePseudo p))

/-- `_usePseudoElementEntries` of `src/font-crawler.js`: with a falsy option
the entries pass through; a string option is split at commas; an array is
used as is; a callback is asked per entry and its answer (string or array)
is expanded, anything else ignored. -/
def usePseudoElementEntries (spec : PseudoSpec) (entries : List Entry) :
    List Entry :=
  match spec with
  | PseudoSpec.none => entries
  | PseudoSpec.str s =>
      if s == "" then entries
      else entries.foldl (fun result e => result ++ expandWith (splitDelim s) e) []
  | PseudoSpec.list l =>
      entries.foldl (fun result e => result ++ expandWith l e) []
  | PseudoSpec.fn f =>
      entries.foldl
        (fun result e =>
          let ps : List String :=
            match f e.1 e.2 with
            | PseudoRet.str s => splitDelim s
            | PseudoRet.list l => l
            | PseudoRet.other => []
          result ++ expandWith ps e)
        []

/-- `_filterEntries`: apply the user-supplied predicate when one is
configured. -/
def filterEntries (filt : Option (Elem → Option String → Bool))
    (entries : List Entry) : List Entry :=
  match filt with
  | some f => entries.filter fun e => f e.1 e.2
  | Option.none => entries

/-- Host environment of one crawl: the target element together with
`target.querySelectorAll` restricted to it. -/
structure Host where
  target : Elem
  qsa : String → List Elem

/-- `_querySelectorElements`: run the selector under the target and
optionally prepend the target itself. -/
def querySelectorElements (host : Host) (opts : Options) : List Elem :=
  let elements := host.qsa opts.querySelector
  if opts.includeTarget then host.target :: elements else elements

/-- `_getEntries` of `src/font-crawler.js`: selection, element filter,
materialization, pseudo expansion, entry filter, in that order. -/
def getEntries (host : Host) (opts : Options) : List Entry :=
  filterEntries opts.filter
    (usePseudoElementEntries opts.usePseudoElement
      (mapElementsAsEntries
        (filterElements opts (querySelectorElements host opts))))

/-- JavaScript truthiness of the `usePseudoElement` option, as tested by
`_usePseudoElementEntriesAsync` (`!!this.getOption("usePseudoElement")`). -/
def pseudoTruthy : PseudoSpec → Bool
  | PseudoSpec.none => false
  | PseudoSpec.str s => !(s == "")
  | PseudoSpec.list _ => true
  | PseudoSpec.fn _ => true

/-- `_delayExec`: run the method on its arguments, either behind one
animation frame (condition truthy) or synchronously.  The computed value is
handed to the continuation unchanged either way; the second component counts
the frames consumed. -/
def delayExec {α β : Type} (condition : Bool) (method : α → β) (args : α) :
    β × Nat :=
  (method args, if condition then 1 else 0)

/-- `_getEntriesAsync` of `src/font-crawler.js`: the same five stages as
`_getEntries`, each wrapped in `_delayExec` with its stage-specific
condition. -/
def getEntriesAsync (host : Host) (opts : Options) : List Entry × Nat :=
  let r1 := delayExec true (fun o => querySelectorElements host o) opts
  let r2 := delayExec true (fun es => filterElements opts es) r1.1
  let r3 := delayExec false mapElementsAsEntries r2.1
  let r4 := delayExec (pseudoTruthy opts.usePseudoElement)
    (usePseudoElementEntries opts.usePseudoElement) r3.1
  let r5 := delayExec opts.filter.isSome (filterEntries opts.filter) r4.1
  (r5.1, r1.2 + r2.2 + r3.2 + r4.2 + r5.2)

/-- Variant B `_addPseudoEntries` (second revision in
`src/unnamed/part_000`).  Its `entries.reduce` callback pushes the base
entry and the pseudo entries into `carry` but has no `return` statement, so
from the second iteration on `carry` is `undefined` and `carry.push` throws
a TypeError; with exactly one entry the reduce returns `undefined` itself
(modelled as `Except.ok Option.none`), which breaks every caller
downstream.  Only the truthiness test and the reduce are modelled — the
pseudo-name list the callback pushes is discarded with `carry`. -/
def addPseudoEntriesB (pseudoOpt : Option String) (entries : List Entry) :
    Except Unit (Option (List Entry)) :=
  match pseudoOpt with
  | Option.none => Except.ok (some entries)
  | some ps =>
      if ps == "" then Except.ok (some entries)
      else
        match entries with
        | [] => Except.ok (some [])
        | [_] => Except.ok Option.none
        | _ :: _ :: _ => Except.error ()

/-- Style sampling of `_handleElement`: computed style of the entry's
surface. -/
def sampleCss (e : Elem) (pseudo : Option String) : Css := e.style pseudo

/-- `_handleEntry` → `_handleElement` → `_handleSource` of
`src/font-crawler.js`. -/
def handleEntry (excl : Option (List String)) (entry : Entry)
    (source : Source) : Source :=
  handleSource excl (sampleCss entry.1 entry.2) source

/-- One step of the `reduce` in `crawl()`. -/
def recordStep (excl : Option (List String)) (carry : Source)
    (entry : Entry) : Source :=
  handleEntry excl entry carry

/-- Observable scheduler events of one async crawl. -/
inductive Ev where
  | frame
  | proc (e : Entry)
  | idle
  | doneReq
  | doneFire (s : Source)

/-- Result of the synchronous run of one animation-frame callback: the
remaining queue, the map, the next clock index, the emitted events, and
whether the queue was exhausted. -/
structure FrameRes where
  rest : List Entry
  src : Source
  idx : Nat
  evs : List Ev
  fin : Bool

/-- JavaScript truthiness of `this.__frameTimestamp` (unset or `0` is
falsy). -/
def tsTruthy : Option Rat → Bool
  | some t => decide (t ≠ 0)
  | Option.none => false

/-- Value of a set timestamp. -/
def tsVal : Option Rat → Rat
  | some t => t
  | Option.none => 0

/-- `_crawlAsyncCallback` together with the synchronous tail of
`_crawlAsyncRecursion` of `src/font-crawler.js`.  The callback first sets
`__frameTimestamp` from the clock when it is falsy, then (queue permitting)
handles one entry; the recursion finishes through `_crawlAsyncClear`
(`clear()`, then the completion callback is handed to
`requestAnimationFrame`) on an empty queue, re-enters the callback while
the elapsed time is below `asyncIntervalDuration/1000`, and otherwise runs
`clear()` and requests the next frame.  `clock n` is the value of the n-th
`_getTimestamp()` call. -/
def asyncCallback (excl : Option (List String)) (dur : Rat)
    (clock : Nat → Rat) :
    List Entry → Source → Option Rat → Nat → FrameRes
  | [], source, ts, i =>
      ⟨[], source, if tsTruthy ts then i else i + 1,
        [Ev.idle, Ev.doneReq], true⟩
  | e :: rest, source, ts, i =>
      let start := if tsTruthy ts then tsVal ts else clock i
      let i1 := if tsTruthy ts then i else i + 1
      let source1 := handleEntry excl e source
      match rest with
      | [] => ⟨[], source1, i1, [Ev.proc e, Ev.idle, Ev.doneReq], true⟩
      | r :: rs =>
          let now := clock i1
          if now - start < dur / 1000 then
            let k := asyncCallback excl dur clock (r :: rs) source1
              (some start) (i1 + 1)
            ⟨k.rest, k.src, k.idx, Ev.proc e :: k.evs, k.fin⟩
          else ⟨r :: rs, source1, i1 + 1, [Ev.proc e, Ev.idle], false⟩

/-- Frame driver of `crawlAsync` in `src/font-crawler.js`.  Every frame
starts with a cleared `__frameTimestamp` (the yield path runs `clear()`
before requesting the next frame), so the callback is entered with
`ts = none`.  A frame whose queue is non-empty processes at least one
entry, hence `queue.length + 1` frames always suffice and the zero-fuel
branch is unreachable from `runFrames`.  The completion callback fires
inside its own, later animation frame. -/
def runFramesFuel (excl : Option (List String)) (dur : Rat)
    (clock : Nat → Rat) :
    Nat → List Entry → Source → Nat → List Ev × Source
  | 0, _, source, _ => ([], source)
  | fuel + 1, queue, source, i =>
      let r := asyncCallback excl dur clock queue source Option.none i
      if r.fin then
        (Ev.frame :: (r.evs ++ [Ev.frame, Ev.doneFire r.src]), r.src)
      else
        let next := runFramesFuel excl dur clock fuel r.rest r.src r.idx
        (Ev.frame :: (r.evs ++ next.1), next.2)

/-- Frames of one async crawl, from the first scheduled
`_crawlAsyncCallback` to the completion callback. -/
def runFrames (excl : Option (List String)) (dur : Rat) (clock : Nat → Rat)
    (queue : List Entry) (source : Source) (i : Nat) : List Ev × Source :=
  runFramesFuel excl dur clock (queue.length + 1) queue source i

/-- `crawlAsync` of `src/font-crawler.js` run to completion: the entries
of the async pipeline processed across animation frames from the empty
map.  First component: the event trace; second: the map handed to the
completion callback. -/
def crawlAsyncRun (host : Host) (opts : Options) (clock : Nat → Rat) :
    List Ev × Source :=
  runFrames opts.excludeFontFamilies opts.asyncIntervalDuration clock
    (getEntriesAsync host opts).1 [] 0

/-- The two ad hoc instance fields driving `isPending` and `clear` in
`src/font-crawler.js`: `__frameInterval` (the animation-frame request id)
and `__frameTimestamp`. -/
structure CState where
  frameInterval : Option Nat
  frameTimestamp : Option Rat

/-- State with both fields deleted. -/
def idleState : CState := ⟨Option.none, Option.none⟩

/-- `isPending`: `!!this.__frameInterval`. -/
def isPendingS (st : CState) : Bool :=
  match st.frameInterval with
  | some h => decide (h ≠ 0)
  | Option.none => false

/-- Message of the exception thrown by `_checkBusy`. -/
def busyMsg : String := "FontCrawler: FontCrawler is busy."

/-- Queue and accumulating map of an in-flight async crawl (held in the
closures threaded through `_crawlAsyncRequestFrame`). -/
structure Flight where
  queue : List Entry
  source : Source

/-- `crawl()` of `src/font-crawler.js`: `_checkBusy` throws when an async
crawl is pending, otherwise the pipeline entries are folded through
`_handleEntry` from the empty object.  Neither branch touches the state or
an in-flight crawl, so both are returned unchanged. -/
def crawlOp (host : Host) (opts : Options) (st : CState) (fl : Flight) :
    Except String Source × CState × Flight :=
  if isPendingS st then (Except.error busyMsg, st, fl)
  else
    (Except.ok
        ((getEntries host opts).foldl (recordStep opts.excludeFontFamilies) []),
      st, fl)

/-- Start of `crawlAsync(callback)`: `_checkBusy` throws when pending;
otherwise `_getEntriesAsync` is kicked off (its `_delayExec` frames are not
tracked in `__frameInterval`, so the synchronously observable state is
unchanged). -/
def crawlAsyncOp (_host : Host) (_opts : Options) (st : CState) (fl : Flight) :
    Except String Unit × CState × Flight :=
  if isPendingS st then (Except.error busyMsg, st, fl)
  else (Except.ok (), st, fl)

/-- `clear()`: cancel the outstanding animation-frame request when the
request id is truthy, then delete both fields.  Second component: the ids
passed to `cancelAnimationFrame`. -/
def clearOp (st : CState) : CState × List Nat :=
  (idleState,
    match st.frameInterval with
    | some h => if h = 0 then [] else [h]
    | Option.none => [])

/-- A cancelled animation-frame request never fires, so the continuation of
an in-flight crawl whose request id was cancelled contributes no further
events; an uncancelled one runs its frames. -/
def pendingTrace (cancelled : List Nat) (handle : Nat)
    (excl : Option (List String)) (dur : Rat) (clock : Nat → Rat)
    (fl : Flight) (i : Nat) : List Ev :=
  if handle ∈ cancelled then []
  else (runFrames excl dur clock fl.queue fl.source i).1

/-- Budget option `asyncMax` of the first revision in
`src/unnamed/part_000`: a number, or a non-numeric value (after `*1` it is
NaN). -/
inductive BudgetOpt where
  | num (n : Int)
  | nonNum

/-- Effective slice budget of that revision's `crawlAsync`:
`var count = this.getOption("asyncMax")*1; if (!count || count < 0) count =
this._defaults.asyncMax;` — 0 and NaN are falsy, negatives are rejected,
the default is 1000. -/
def effectiveAsyncMax : BudgetOpt → Int
  | BudgetOpt.num n => if n ≤ 0 then 1000 else n
  | BudgetOpt.nonNum => 1000

/-- The budgets the fallback replaces. -/
def isInvalidAsyncMax : BudgetOpt → Bool
  | BudgetOpt.num n => decide (n ≤ 0)
  | BudgetOpt.nonNum => true

/-- `_handleElement`/`_handleSource` of the first revision (it has no
`excludeFontFamilies` option). -/
def handleEntryA (entry : Entry) (source : Source) : Source :=
  handleSourceCore (sampleCss entry.1 entry.2) source

/-- Result of the `while` loop of `_crawlAsyncRecursive`. -/
structure LoopRes where
  rest : List Entry
  src : Source
  evs : List Ev

/-- The `while (done++ < count && entries.length)` loop of
`_crawlAsyncRecursive`: handle up to `count` entries off the queue. -/
def whileLoopA : Nat → List Entry → Source → LoopRes
  | 0, queue, source => ⟨queue, source, []⟩
  | _ + 1, [], source => ⟨[], source, []⟩
  | n + 1, e :: rest, source =>
      let k := whileLoopA n rest (handleEntryA e source)
      ⟨k.rest, k.src, Ev.proc e :: k.evs⟩

/-- `_crawlAsyncRecursive` of the first revision: each animation frame
processes up to `count` entries; when entries remain the next frame is
requested, otherwise the completion callback is invoked synchronously
inside the same frame — no Idle transition and no second scheduling hop.
Fuel as in `runFramesFuel`: with `count ≥ 1` a frame on a non-empty queue
processes at least one entry, so `queue.length + 1` frames suffice. -/
def runFramesAFuel (count : Nat) : Nat → List Entry → Source → List Ev × Source
  | 0, _, source => ([], source)
  | fuel + 1, queue, source =>
      let r := whileLoopA count queue source
      if r.rest.isEmpty then
        (Ev.frame :: (r.evs ++ [Ev.doneFire r.src]), r.src)
      else
        let next := runFramesAFuel count fuel r.rest r.src
        (Ev.frame :: (r.evs ++ next.1), next.2)

/-- `crawlAsync` of the first revision, run to completion on an entry
list. -/
def crawlAsyncA (entries : List Entry) (opt : BudgetOpt) : List Ev × Source :=
  runFramesAFuel (effectiveAsyncMax opt).toNat (entries.length + 1) entries []

/-- Variant B `_crawlAsyncCallback` (second revision in
`src/unnamed/part_000`): identical to the main revision except that the
`if (entries.length)` guard is missing — `entries.shift()` on an empty
queue yields `undefined` and `_handleEntry` dereferences `entry[0]`,
throwing a TypeError before any recursion can complete the crawl. -/
def asyncCallbackB (excl : Option (List String)) (dur : Rat)
    (clock : Nat → Rat) (queue : List Entry) (source : Source)
    (ts : Option Rat) (i : Nat) : Except Unit FrameRes :=
  match queue with
  | [] => Except.error ()
  | e :: rest => Except.ok (asyncCallback excl dur clock (e :: rest) source ts i)

/-- Frame events of a trace. -/
def isFrameEv : Ev → Bool
  | Ev.frame => true
  | _ => false

/-- Number of animation frames a trace spans. -/
def countFrames (trace : List Ev) : Nat := (trace.filter isFrameEv).length

/-- Sample computed style. -/
def cssArial : Css := ⟨"Arial", "400", "normal"⟩

/-- Sample element with one meaningful text-node child, matching no
selector, every surface styled Arial 400 normal. -/
def elemPlain : Elem :=
  { selMatches := fun _ => false
    childNodes := [⟨3, "hi"⟩]
    textContent := "hi"
    style := fun _ => cssArial }

/-- Base entry on the sample element. -/
def entryPlain : Entry := (elemPlain, Option.none)

/-- Sample element matching exactly the selector "input". -/
def elemInput : Elem :=
  { selMatches := fun s => s == "input"
    childNodes := []
    textContent := ""
    style := fun _ => cssArial }

/-- Host whose selector query finds one child element. -/
def hostTwo : Host :=
  { target := elemPlain
    qsa := fun _ => [elemPlain] }

/-- Host whose selector query finds nothing. -/
def hostEmpty : Host :=
  { target := elemPlain
    qsa := fun _ => [] }

/-- Options with no include/exclude selectors, everything else default. -/
def optsPlain : Options :=
  { includeElements := Option.none
    excludeElements := Option.none }

/-- Same, with a zero frame budget. -/
def optsZeroDur : Options :=
  { includeElements := Option.none
    excludeElements := Option.none
    asyncIntervalDuration := 0 }

/-- Options that keep the pipeline empty: nothing selected and the target
itself not included. -/
def optsNoTarget : Options :=
  { includeTarget := false
    includeElements := Option.none
    excludeElements := Option.none }

/-- Options for the element-filter witness. -/
def optsInputBase : Options :=
  { includeElements := some "input"
    excludeElements := some "base" }

/-- Clock that always reads one second. -/
def clockOne : Nat → Rat := fun _ => 1

@[simp] theorem sourceKeys_nil : sourceKeys [] = [] := rfl

@[simp] theorem sourceKeys_cons (k : String) (v : List String) (rest : Source) :
    sourceKeys ((k, v) :: rest) = k :: sourceKeys rest := rfl

theorem getFam_isSome_iff (s : Source) (f : String) :
    (getFam s f).isSome = true ↔ f ∈ sourceKeys s := by
  induction s with
  | nil => simp [getFam]
  | cons p rest ih =>
      obtain ⟨k, v⟩ := p
      by_cases h : k = f
      · subst h; simp [getFam]
      · simp [getFam, h, ih, Ne.symm h]

theorem getFam_eq_some_mem {s : Source} {f : String} {v : List String}
    (h : getFam s f = some v) : (f, v) ∈ s := by
  induction s with
  | nil => simp [getFam] at h
  | cons p rest ih =>
      obtain ⟨k, w⟩ := p
      by_cases hk : k = f
      · subst hk
        simp [getFam] at h
        simp [h]
      · simp [getFam, hk] at h
        exact List.mem_cons_of_mem _ (ih h)

theorem setFam_of_not_mem {s : Source} {f : String} (v : List String)
    (h : f ∉ sourceKeys s) : setFam s f v = s ++ [(f, v)] := by
  induction s with
  | nil => simp [setFam]
  | cons p rest ih =>
      obtain ⟨k, w⟩ := p
      simp only [sourceKeys_cons, List.mem_cons] at h
      push_neg at h
      simp [setFam, Ne.symm h.1, ih h.2]

theorem sourceKeys_setFam_of_mem {s : Source} {f : String} (v : List String)
    (h : f ∈ sourceKeys s) : sourceKeys (setFam s f v) = sourceKeys s := by
  induction s with
  | nil => simp at h
  | cons p rest ih =>
      obtain ⟨k, w⟩ := p
      by_cases hk : k = f
      · subst hk; simp [setFam]
      · simp only [sourceKeys_cons, List.mem_cons] at h
        rcases h with h | h
        · exact absurd h.symm hk
        · simp [setFam, hk, ih h]

theorem sourceKeys_setFam_of_not_mem {s : Source} {f : String}
    (v : List String) (h : f ∉ sourceKeys s) :
    sourceKeys (setFam s f v) = sourceKeys s ++ [f] := by
  rw [setFam_of_not_mem v h]
  simp [sourceKeys]

theorem getFam_setFam_self (s : Source) (f : String) (v : List String) :
    getFam (setFam s f v) f = some v := by
  induction s with
  | nil => simp [setFam, getFam]
  | cons p rest ih =>
      obtain ⟨k, w⟩ := p
      by_cases hk : k = f
      · subst hk; simp [setFam, getFam]
      · simp [setFam, hk, getFam, ih]

theorem mem_setFam {p : String × List String} {s : Source} {f : String}
    {v : List String} (h : p ∈ setFam s f v) : p = (f, v) ∨ p ∈ s := by
  induction s with
  | nil => simp [setFam] at h; simp [h]
  | cons q rest ih =>
      obtain ⟨k, w⟩ := q
      by_cases hk : k = f
      · subst hk
        simp [setFam] at h
        rcases h with h | h
        · exact Or.inl (by simp [h])
        · exact Or.inr (List.mem_cons_of_mem _ h)
      · simp [setFam, hk] at h
        rcases h with h | h
        · exact Or.inr (by simp [h])
        · rcases ih h with h' | h'
          · exact Or.inl h'
          · exact Or.inr (List.mem_cons_of_mem _ h')

theorem charsLt_iff_lex : ∀ as bs : List Char,
    charsLt as bs = true ↔ List.Lex (· < ·) as bs
  | [], [] => by simp [charsLt]
  | [], b :: bs => by
      simp only [charsLt, true_iff]
      exact List.Lex.nil
  | a :: as, [] => by simp [charsLt]
  | a :: as, b :: bs => by
      by_cases hab : a < b
      · simp only [charsLt, hab, if_true, true_iff]
        exact List.Lex.rel hab
      · by_cases hba : b < a
        · simp only [charsLt, hab, if_false, hba, if_true, Bool.false_eq_true,
            false_iff]
          intro h
          cases h with
          | cons h => exact lt_irrefl _ hba
          | rel h => exact hab h
        · have heq : a = b := le_antisymm (not_lt.mp hba) (not_lt.mp hab)
          subst heq
          simp only [charsLt, lt_irrefl, if_false]
          rw [charsLt_iff_lex as bs]
          exact List.Lex.cons_iff.symm

theorem strLe_iff_le (a b : String) : strLe a b = true ↔ a ≤ b := by
  have hlex : charsLt b.data a.data = true ↔ b < a :=
    (charsLt_iff_lex b.data a.data).trans String.lt_iff_toList_lt.symm
  constructor
  · intro h
    rw [← not_lt]
    intro hba
    rw [← hlex] at hba
    simp [strLe, hba] at h
  · intro h
    have hn : ¬charsLt b.data a.data = true := by
      rw [hlex]; exact not_lt.mpr h
    simp only [strLe, Bool.not_eq_true']
    exact Bool.not_eq_true _ ▸ hn

instance : IsTotal String strLeRel :=
  ⟨fun a b => by
    rcases le_total a b with h | h
    · exact Or.inl ((strLe_iff_le a b).mpr h)
    · exact Or.inr ((strLe_iff_le b a).mpr h)⟩

instance : IsTrans String strLeRel :=
  ⟨fun a b c hab hbc =>
    (strLe_iff_le a c).mpr
      (le_trans ((strLe_iff_le a b).mp hab) ((strLe_iff_le b c).mp hbc))⟩

theorem jsSort_sorted (l : List String) : (jsSort l).Sorted (· ≤ ·) :=
  List.Pairwise.imp (fun h => (strLe_iff_le _ _).mp h)
    (List.sorted_insertionSort strLeRel l)

theorem jsSort_nodup {l : List String} (h : l.Nodup) : (jsSort l).Nodup :=
  ((List.perm_insertionSort _ l).nodup_iff).mpr h

theorem jsSort_singleton (a : String) : jsSort [a] = [a] := by
  simp [jsSort, List.insertionSort, List.orderedInsert]

theorem handleSourceCore_of_some_tok {s : Source} {cur : List String}
    (css : Css) (hcur : getFam s css.fontFamily = some cur)
    (ht : variantToken css.fontWeight css.fontStyle ∈ cur) :
    handleSourceCore css s = s := by
  simp [handleSourceCore, hcur, ht]

theorem handleSourceCore_of_some_new {s : Source} {cur : List String}
    (css : Css) (hcur : getFam s css.fontFamily = some cur)
    (ht : variantToken css.fontWeight css.fontStyle ∉ cur) :
    handleSourceCore css s
      = setFam s css.fontFamily
          (jsSort (cur ++ [variantToken css.fontWeight css.fontStyle])) := by
  simp [handleSourceCore, hcur, ht]

theorem handleSourceCore_of_none {s : Source} (css : Css)
    (hcur : getFam s css.fontFamily = none) :
    handleSourceCore css s
      = setFam (setFam s css.fontFamily []) css.fontFamily
          (jsSort ([] ++ [variantToken css.fontWeight css.fontStyle])) := by
  simp [handleSourceCore, hcur, getFam_setFam_self]

theorem handleSourceCore_inv {s : Source} (css : Css) (h : SourceInv s) :
    SourceInv (handleSourceCore css s) := by
  obtain ⟨hkeys, hvals⟩ := h
  cases hcur : getFam s css.fontFamily with
  | some cur =>
      have hmemk : css.fontFamily ∈ sourceKeys s :=
        (getFam_isSome_iff s _).mp (by simp [hcur])
      have hcurv := hvals _ (getFam_eq_some_mem hcur)
      by_cases ht : variantToken css.fontWeight css.fontStyle ∈ cur
      · rw [handleSourceCore_of_some_tok css hcur ht]
        exact ⟨hkeys, hvals⟩
      · rw [handleSourceCore_of_some_new css hcur ht]
        refine ⟨?_, ?_⟩
        · rw [sourceKeys_setFam_of_mem _ hmemk]; exact hkeys
        · intro p hp
          rcases mem_setFam hp with hp' | hp'
          · subst hp'
            refine ⟨jsSort_sorted _, jsSort_nodup ?_⟩
            simp [List.nodup_append, hcurv.2, ht]
          · exact hvals _ hp'
  | none =>
      have hnot : css.fontFamily ∉ sourceKeys s := by
        intro hc
        have := (getFam_isSome_iff s _).mpr hc
        simp [hcur] at this
      rw [handleSourceCore_of_none css hcur]
      have hkeys1 : sourceKeys (setFam s css.fontFamily [])
          = sourceKeys s ++ [css.fontFamily] :=
        sourceKeys_setFam_of_not_mem _ hnot
      have hmem1 : css.fontFamily ∈ sourceKeys (setFam s css.fontFamily []) := by
        rw [hkeys1]; simp
      refine ⟨?_, ?_⟩
      · rw [sourceKeys_setFam_of_mem _ hmem1, hkeys1]
        simp [List.nodup_append, hkeys, hnot]
      · intro p hp
        rcases mem_setFam hp with hp' | hp'
        · subst hp'
          exact ⟨jsSort_sorted _, jsSort_nodup (by simp)⟩
        · rcases mem_setFam hp' with hp'' | hp''
          · subst hp''; simp
          · exact hvals _ hp''

theorem handleSource_inv {s : Source} (excl : Option (List String)) (css : Css)
    (h : SourceInv s) : SourceInv (handleSource excl css s) := by
  unfold handleSource
  by_cases hx : famExcluded excl css.fontFamily = true
  · simp only [hx, if_true]; exact h
  · simp only [hx, Bool.false_eq_true, if_false]
    exact handleSourceCore_inv css h

theorem aggregate_inv (excl : Option (List String)) (ops : List Css) :
    SourceInv (aggregate excl ops) := by
  suffices h : ∀ (l : List Css) (s : Source), SourceInv s →
      SourceInv (l.foldl (fun s css => handleSource excl css s) s) by
    exact h ops [] ⟨by simp, by simp⟩
  intro l
  induction l with
  | nil => intro s hs; simpa using hs
  | cons c rest ih =>
      intro s hs
      exact ih _ (handleSource_inv excl c hs)

theorem handleSource_keys_of_mem {excl : Option (List String)} {css : Css}
    {s : Source} (h : css.fontFamily ∈ sourceKeys s) :
    sourceKeys (handleSource excl css s) = sourceKeys s := by
  unfold handleSource
  by_cases hx : famExcluded excl css.fontFamily = true
  · simp [hx]
  · simp only [hx, Bool.false_eq_true, if_false]
    obtain ⟨cur, hcur⟩ :=
      Option.isSome_iff_exists.mp ((getFam_isSome_iff s _).mpr h)
    by_cases ht : variantToken css.fontWeight css.fontStyle ∈ cur
    · rw [handleSourceCore_of_some_tok css hcur ht]
    · rw [handleSourceCore_of_some_new css hcur ht,
        sourceKeys_setFam_of_mem _ h]

theorem handleSource_keys_of_not_mem {excl : Option (List String)} {css : Css}
    {s : Source} (h : css.fontFamily ∉ sourceKeys s)
    (hx : famExcluded excl css.fontFamily = false) :
    sourceKeys (handleSource excl css s) = sourceKeys s ++ [css.fontFamily]
    ∧ getFam (handleSource excl css s) css.fontFamily
        = some [variantToken css.fontWeight css.fontStyle] := by
  have hcur : getFam s css.fontFamily = none := by
    cases hg : getFam s css.fontFamily with
    | none => rfl
    | some cur =>
        exact absurd ((getFam_isSome_iff s _).mp (by simp [hg])) h
  have hrw : handleSource excl css s
      = setFam (setFam s css.fontFamily []) css.fontFamily
          (jsSort ([] ++ [variantToken css.fontWeight css.fontStyle])) := by
    unfold handleSource
    rw [hx]
    simp only [Bool.false_eq_true, if_false]
    exact handleSourceCore_of_none css hcur
  have hmem1 : css.fontFamily ∈ sourceKeys (setFam s css.fontFamily []) := by
    rw [sourceKeys_setFam_of_not_mem _ h]; simp
  rw [hrw]
  constructor
  · rw [sourceKeys_setFam_of_mem _ hmem1, sourceKeys_setFam_of_not_mem _ h]
  · rw [getFam_setFam_self]
    simp [jsSort_singleton]

/-- C2.  For every sequence of record operations into the aggregation map
(`_handleSource`, any families, weights, styles, in any insertion order),
after each operation (every prefix of the operation sequence, folded from the
empty map) every family's token sequence is sorted lexicographically with no
duplicate tokens and the key list is duplicate-free; moreover a further record
for a family already present leaves the key list unchanged, while a record for
a fresh (non-excluded) family appends the key at the end exactly once, its
sequence starting from empty and holding just the new token. -/
theorem aggregation_map_invariant (excl : Option (List String)) (ops : List Css)
    (n : Nat) :
    SourceInv (aggregate excl (ops.take n))
    ∧ (∀ css : Css,
        (css.fontFamily ∈ sourceKeys (aggregate excl (ops.take n)) →
          sourceKeys (handleSource excl css (aggregate excl (ops.take n)))
            = sourceKeys (aggregate excl (ops.take n)))
        ∧ (css.fontFamily ∉ sourceKeys (aggregate excl (ops.take n)) →
            famExcluded excl css.fontFamily = false →
            sourceKeys (handleSource excl css (aggregate excl (ops.take n)))
              = sourceKeys (aggregate excl (ops.take n)) ++ [css.fontFamily]
            ∧ getFam (handleSource excl css (aggregate excl (ops.take n)))
                css.fontFamily
              = some [variantToken css.fontWeight css.fontStyle])) := by
  refine ⟨aggregate_inv excl _, fun css => ⟨fun h => ?_, fun h hx => ?_⟩⟩
  · exact handleSource_keys_of_mem h
  · exact handleSource_keys_of_not_mem h hx

/-- Witness for C2 at a concrete operation sequence. -/
theorem aggregation_map_invariant_witness :
    SourceInv (aggregate none (List.take 2
      [⟨"Georgia", "400", "italic"⟩, ⟨"Georgia", "400", "normal"⟩]))
    ∧ sourceKeys (handleSource none ⟨"Arial", "700", "normal"⟩
        (aggregate none (List.take 2
          [⟨"Georgia", "400", "italic"⟩, ⟨"Georgia", "400", "normal"⟩])))
      = sourceKeys (aggregate none (List.take 2
          [⟨"Georgia", "400", "italic"⟩, ⟨"Georgia", "400", "normal"⟩]))
        ++ ["Arial"] := by
  have h := aggregation_map_invariant none
    [⟨"Georgia", "400", "italic"⟩, ⟨"Georgia", "400", "normal"⟩] 2
  refine ⟨h.1, ((h.2 ⟨"Arial", "700", "normal"⟩).2 (by decide) (by decide)).1⟩

/-- C6.  The recorded variant token is the weight string with an "i" marker
appended exactly when the style is not "normal"; weight 700 with style italic
yields "700i", and weights 400 normal and 400 italic recorded for one family
(in either order) yield the sorted pair ["400", "400i"]. -/
theorem variant_token_style_marker (w s : String) :
    (variantToken w s = w ++ "i" ↔ s ≠ "normal")
    ∧ variantToken "700" "italic" = "700i"
    ∧ handleSourceCore ⟨"Georgia", "400", "italic"⟩
        (handleSourceCore ⟨"Georgia", "400", "normal"⟩ [])
      = [("Georgia", ["400", "400i"])]
    ∧ handleSourceCore ⟨"Georgia", "400", "normal"⟩
        (handleSourceCore ⟨"Georgia", "400", "italic"⟩ [])
      = [("Georgia", ["400", "400i"])] := by
  refine ⟨?_, by decide, by rfl, by rfl⟩
  constructor
  · intro h hs
    subst hs
    simp only [variantToken, beq_self_eq_true, if_true, String.append_empty] at h
    have hl := congrArg String.length h
    have h1 : "i".length = 1 := rfl
    rw [String.length_append, h1] at hl
    omega
  · intro hs
    simp [variantToken, hs]

/-- Witness for C6 at a concrete weight/style pair. -/
theorem variant_token_style_marker_witness :
    variantToken "400" "italic" = "400" ++ "i" :=
  (variant_token_style_marker "400" "italic").1.mpr (by decide)

theorem getEntriesAsync_fst (host : Host) (opts : Options) :
    (getEntriesAsync host opts).1 = getEntries host opts := rfl

theorem keepElement_eq {inc exc : String} (hi : inc ≠ "") (hx : exc ≠ "")
    (e : Elem) :
    keepElement (some inc) (some exc) e
      = (e.selMatches inc || (!e.selMatches exc && hasTextNodeChild e)) := by
  have hti : (inc == "") = false := by simpa using hi
  have htx : (exc == "") = false := by simpa using hx
  simp only [keepElement, strOptTruthy, matchesOpt, hti, htx, Bool.not_false,
    Bool.true_and]
  cases hmi : e.selMatches inc <;> cases hmx : e.selMatches exc <;> simp

/-- C7.  In strict mode (both selector options configured and non-empty) the
element-filtering stage keeps an element exactly when it matches the
"always include" selector, or it does not match the "always exclude"
selector and it has a meaningful text-node child; and having a meaningful
text-node child means: some child is a text node whose trimmed content is
non-empty or whose parent's (the element's) trimmed text content is
non-empty. -/
theorem strict_filter_keep_iff (opts : Options) (inc exc : String)
    (h1 : opts.includeElements = some inc)
    (h2 : opts.excludeElements = some exc)
    (hi : inc ≠ "") (hx : exc ≠ "") (e : Elem) (elems : List Elem) :
    (e ∈ filterElements opts elems ↔
       e ∈ elems ∧
         (e.selMatches inc = true
           ∨ (e.selMatches exc = false ∧ hasTextNodeChild e = true)))
    ∧ (hasTextNodeChild e = true ↔
        ∃ c ∈ e.childNodes, c.nodeType = 3
          ∧ (jsTrim c.textContent ≠ "" ∨ jsTrim e.textContent ≠ "")) := by
  constructor
  · rw [filterElements, h1, h2, List.mem_filter, keepElement_eq hi hx]
    simp [Bool.or_eq_true, Bool.and_eq_true, Bool.not_eq_true']
  · simp [hasTextNodeChild, List.any_eq_true, Bool.and_eq_true,
      Bool.or_eq_true, Bool.not_eq_true', beq_iff_eq]

/-- Witness for C7 at a concrete element and configuration. -/
theorem strict_filter_keep_iff_witness :
    ("input" : String) ≠ ""
    ∧ elemInput ∈ filterElements optsInputBase [elemInput] := by
  refine ⟨by decide, ?_⟩
  exact ((strict_filter_keep_iff optsInputBase "input" "base" rfl rfl
      (by decide) (by decide) elemInput [elemInput]).1).mpr
    ⟨by simp, Or.inl rfl⟩

/-- C8 (code bug).  The expansion stage of `src/font-crawler.js` outputs,
per input entry in order, the base entry followed by the configured pseudo
entries, names normalized by stripping leading colons and prefixing "::" —
but the `_addPseudoEntries` of the second revision in
`src/unnamed/part_000` cannot produce that output on any non-empty entry
list: its reduce callback lacks a `return`, so two entries crash on
`carry.push` of `undefined` and a single entry makes the stage return
`undefined`. -/
theorem add_pseudo_entries_missing_return :
    addPseudoEntriesB (some "before,after") [entryPlain, entryPlain]
      = Except.error ()
    ∧ addPseudoEntriesB (some "before,after") [entryPlain]
      = Except.ok Option.none
    ∧ usePseudoElementEntries (PseudoSpec.str "before,after")
        [entryPlain, entryPlain]
      = [entryPlain, (elemPlain, some "::before"), (elemPlain, some "::after"),
          entryPlain, (elemPlain, some "::before"), (elemPlain, some "::after")]
    ∧ normalizePseudo ":before" = "::before" :=
  ⟨rfl, rfl, rfl, rfl⟩

theorem asyncCallback_foldl (excl : Option (List String)) (dur : Rat)
    (clock : Nat → Rat) :
    ∀ (queue : List Entry) (source : Source) (ts : Option Rat) (i : Nat),
      ((asyncCallback excl dur clock queue source ts i).rest).foldl
          (recordStep excl) ((asyncCallback excl dur clock queue source ts i).src)
        = queue.foldl (recordStep excl) source := by
  intro queue
  induction queue with
  | nil => intro source ts i; simp [asyncCallback]
  | cons e rest ih =>
      intro source ts i
      cases rest with
      | nil => simp [asyncCallback, recordStep]
      | cons r rs =>
          simp only [asyncCallback, List.foldl_cons]
          set start := if tsTruthy ts = true then tsVal ts else clock i with hs
          set i1 := if tsTruthy ts = true then i else i + 1 with hi1
          split
          · exact ih _ _ _
          · simp [recordStep]

theorem asyncCallback_fin_rest (excl : Option (List String)) (dur : Rat)
    (clock : Nat → Rat) :
    ∀ (queue : List Entry) (source : Source) (ts : Option Rat) (i : Nat),
      (asyncCallback excl dur clock queue source ts i).fin = true →
      (asyncCallback excl dur clock queue source ts i).rest = [] := by
  intro queue
  induction queue with
  | nil => intro source ts i _; simp [asyncCallback]
  | cons e rest ih =>
      intro source ts i h
      cases rest with
      | nil => simp [asyncCallback]
      | cons r rs =>
          simp only [asyncCallback] at h ⊢
          set start := if tsTruthy ts = true then tsVal ts else clock i with hs
          set i1 := if tsTruthy ts = true then i else i + 1 with hi1
          split at h
          · rename_i hc
            simp only [hc, if_true] at h ⊢
            exact ih _ _ _ h
          · simp at h

theorem asyncCallback_rest_length (excl : Option (List String)) (dur : Rat)
    (clock : Nat → Rat) :
    ∀ (queue : List Entry) (source : Source) (ts : Option Rat) (i : Nat),
      (asyncCallback excl dur clock queue source ts i).fin = false →
      (asyncCallback excl dur clock queue source ts i).rest.length
        < queue.length := by
  intro queue
  induction queue with
  | nil => intro source ts i h; simp [asyncCallback] at h
  | cons e rest ih =>
      intro source ts i h
      cases rest with
      | nil => simp [asyncCallback] at h
      | cons r rs =>
          simp only [asyncCallback] at h ⊢
          set start := if tsTruthy ts = true then tsVal ts else clock i with hs
          set i1 := if tsTruthy ts = true then i else i + 1 with hi1
          split at h
          · rename_i hc
            simp only [hc, if_true] at h ⊢
            exact Nat.lt_trans (ih _ _ _ h) (by simp only [List.length_cons]; omega)
          · rename_i hc
            simp only [hc, if_false]
            simp

theorem asyncCallback_fin_evs (excl : Option (List String)) (dur : Rat)
    (clock : Nat → Rat) :
    ∀ (queue : List Entry) (source : Source) (ts : Option Rat) (i : Nat),
      (asyncCallback excl dur clock queue source ts i).fin = true →
      ∃ pre, (asyncCallback excl dur clock queue source ts i).evs
        = pre ++ [Ev.idle, Ev.doneReq] := by
  intro queue
  induction queue with
  | nil =>
      intro source ts i _
      exact ⟨[], by simp [asyncCallback]⟩
  | cons e rest ih =>
      intro source ts i h
      cases rest with
      | nil => exact ⟨[Ev.proc e], by simp [asyncCallback]⟩
      | cons r rs =>
          simp only [asyncCallback] at h ⊢
          set start := if tsTruthy ts = true then tsVal ts else clock i with hs
          set i1 := if tsTruthy ts = true then i else i + 1 with hi1
          split at h
          · rename_i hc
            simp only [hc, if_true] at h ⊢
            obtain ⟨p, hp⟩ := ih _ _ _ h
            exact ⟨Ev.proc e :: p, by simp [hp]⟩
          · simp at h

theorem runFramesFuel_snd (excl : Option (List String)) (dur : Rat)
    (clock : Nat → Rat) :
    ∀ (fuel : Nat) (queue : List Entry) (source : Source) (i : Nat),
      queue.length < fuel →
      (runFramesFuel excl dur clock fuel queue source i).2
        = queue.foldl (recordStep excl) source := by
  intro fuel
  induction fuel with
  | zero => intro queue source i h; omega
  | succ fuel ih =>
      intro queue source i h
      simp only [runFramesFuel]
      by_cases hfin :
          (asyncCallback excl dur clock queue source Option.none i).fin = true
      · simp only [hfin, if_true]
        have hfold := asyncCallback_foldl excl dur clock queue source Option.none i
        rw [asyncCallback_fin_rest excl dur clock queue source Option.none i hfin]
          at hfold
        simpa using hfold
      · simp only [hfin, if_false]
        have hlen := asyncCallback_rest_length excl dur clock queue source
          Option.none i (by simpa using hfin)
        rw [ih _ _ _ (by omega)]
        exact asyncCallback_foldl excl dur clock queue source Option.none i

theorem runFramesFuel_trace (excl : Option (List String)) (dur : Rat)
    (clock : Nat → Rat) :
    ∀ (fuel : Nat) (queue : List Entry) (source : Source) (i : Nat),
      queue.length < fuel →
      ∃ pre, (runFramesFuel excl dur clock fuel queue source i).1
        = pre ++ [Ev.idle, Ev.doneReq, Ev.frame,
            Ev.doneFire ((runFramesFuel excl dur clock fuel queue source i).2)] := by
  intro fuel
  induction fuel with
  | zero => intro queue source i h; omega
  | succ fuel ih =>
      intro queue source i h
      simp only [runFramesFuel]
      by_cases hfin :
          (asyncCallback excl dur clock queue source Option.none i).fin = true
      · simp only [hfin, if_true]
        obtain ⟨p, hp⟩ := asyncCallback_fin_evs excl dur clock queue source
          Option.none i hfin
        refine ⟨Ev.frame :: p, ?_⟩
        simp [hp]
      · simp only [hfin, if_false]
        have hlen := asyncCallback_rest_length excl dur clock queue source
          Option.none i (by simpa using hfin)
        obtain ⟨p, hp⟩ := ih
          (asyncCallback excl dur clock queue source Option.none i).rest
          (asyncCallback excl dur clock queue source Option.none i).src
          (asyncCallback excl dur clock queue source Option.none i).idx
          (by omega)
        refine ⟨Ev.frame ::
          ((asyncCallback excl dur clock queue source Option.none i).evs ++ p), ?_⟩
        simp [hp]

/-- C1.  On the same host tree and configuration, the synchronous `crawl()`
(started idle) and `crawlAsync()` run to completion under any
animation-frame clock produce the same font-usage map — the same family
keys in the same order, each with the same token sequence. -/
theorem crawl_crawlAsync_agree (host : Host) (opts : Options)
    (clock : Nat → Rat) (fl : Flight) :
    (crawlOp host opts idleState fl).1
      = Except.ok ((crawlAsyncRun host opts clock).2) := by
  unfold crawlAsyncRun runFrames
  rw [runFramesFuel_snd _ _ _ _ _ _ _ (by omega), getEntriesAsync_fst]
  rfl

/-- C5 (amended).  In the time-budgeted scheduler of `src/font-crawler.js`,
every completed async crawl ends `clear()` first (Idle transition), then
hands the completion callback to `requestAnimationFrame`, and the callback
fires with the final map inside its own later frame; nothing — in
particular no entry processing — follows it.  (The count-budgeted first
revision instead invokes the callback synchronously inside the final
processing frame: see its counterexample.) -/
theorem async_done_dispatched_after_idle (host : Host) (opts : Options)
    (clock : Nat → Rat) :
    ∃ pre, (crawlAsyncRun host opts clock).1
      = pre ++ [Ev.idle, Ev.doneReq, Ev.frame,
          Ev.doneFire ((crawlAsyncRun host opts clock).2)] := by
  unfold crawlAsyncRun runFrames
  exact runFramesFuel_trace _ _ _ _ _ _ _ (by omega)

/-- C5 counterexample.  In the count-budgeted revision
(`_crawlAsyncRecursive` in `src/unnamed/part_000`), the completion callback
runs synchronously inside the very frame that processed the last entry: the
complete trace of a one-entry crawl carries no Idle transition and no
second scheduling hop before the callback fires. -/
theorem countBudget_done_synchronous :
    (crawlAsyncA [entryPlain] (BudgetOpt.num 1000)).1
      = [Ev.frame, Ev.proc entryPlain, Ev.doneFire [("Arial", ["400"])]]
    ∧ Ev.idle ∉ (crawlAsyncA [entryPlain] (BudgetOpt.num 1000)).1
    ∧ Ev.doneReq ∉ (crawlAsyncA [entryPlain] (BudgetOpt.num 1000)).1 := by
  have h : (crawlAsyncA [entryPlain] (BudgetOpt.num 1000)).1
      = [Ev.frame, Ev.proc entryPlain, Ev.doneFire [("Arial", ["400"])]] := rfl
  refine ⟨h, ?_, ?_⟩ <;> rw [h] <;> simp

/-- C10 (code bug).  A pipeline that yields no entries still completes the
async crawl of `src/font-crawler.js` normally — the first scheduled slice
skips the dequeue behind its `entries.length` guard, the state returns to
Idle and the completion callback fires with the empty map — while the
guard-less `_crawlAsyncCallback` of the second revision in
`src/unnamed/part_000` dereferences the empty queue and throws. -/
theorem empty_queue_async_completion :
    (getEntriesAsync hostEmpty optsNoTarget).1 = []
    ∧ (crawlAsyncRun hostEmpty optsNoTarget clockOne).1
      = [Ev.frame, Ev.idle, Ev.doneReq, Ev.frame, Ev.doneFire []]
    ∧ (crawlAsyncRun hostEmpty optsNoTarget clockOne).2 = []
    ∧ asyncCallbackB Option.none 16 clockOne [] [] Option.none 0
      = Except.error () :=
  ⟨rfl, rfl, rfl, rfl⟩

/-- C3.  Whenever an async crawl is pending, both `crawl()` and
`crawlAsync()` fail synchronously with the busy exception; the scheduler
state is returned unchanged (still Pending) and the in-flight crawl's queue
and accumulating map are untouched by the rejected call. -/
theorem busy_rejection (host : Host) (opts : Options) (st : CState)
    (fl : Flight) (h : isPendingS st = true) :
    crawlOp host opts st fl = (Except.error busyMsg, st, fl)
    ∧ crawlAsyncOp host opts st fl = (Except.error busyMsg, st, fl)
    ∧ isPendingS st = true := by
  simp [crawlOp, crawlAsyncOp, h]

/-- Witness for C3 at a concrete pending state. -/
theorem busy_rejection_witness :
    isPendingS ⟨some 7, some 1⟩ = true
    ∧ crawlOp hostTwo optsPlain ⟨some 7, some 1⟩ ⟨[entryPlain], []⟩
      = (Except.error busyMsg, ⟨some 7, some 1⟩, ⟨[entryPlain], []⟩) := by
  refine ⟨by decide, ?_⟩
  exact (busy_rejection hostTwo optsPlain ⟨some 7, some 1⟩ ⟨[entryPlain], []⟩
    (by decide)).1

/-- C4.  `clear()` during a pending async crawl cancels the outstanding
animation-frame request and transitions to Idle (`isPending` false); the
cancelled request never fires, so the continuation of the in-flight crawl
contributes no events at all — the completion callback never runs and the
partial map is never exposed; a subsequent `crawlAsync` start passes the
busy check; and `clear()` when already Idle has no effect (nothing
cancelled, state unchanged) and is idempotent. -/
theorem clear_cancels_pending (st : CState) (hnd : Nat) (host : Host)
    (opts : Options) (excl : Option (List String)) (dur : Rat)
    (clock : Nat → Rat) (fl fl2 : Flight) (i : Nat)
    (hp : st.frameInterval = some hnd) (h0 : hnd ≠ 0) :
    isPendingS (clearOp st).1 = false
    ∧ (clearOp st).2 = [hnd]
    ∧ pendingTrace (clearOp st).2 hnd excl dur clock fl i = []
    ∧ (crawlAsyncOp host opts (clearOp st).1 fl2).1 = Except.ok ()
    ∧ clearOp idleState = (idleState, [])
    ∧ clearOp (clearOp st).1 = ((clearOp st).1, []) := by
  refine ⟨rfl, ?_, ?_, rfl, rfl, rfl⟩
  · simp [clearOp, hp, h0]
  · simp [pendingTrace, clearOp, hp, h0]

/-- Witness for C4 at a concrete pending state. -/
theorem clear_cancels_pending_witness :
    (⟨some 7, some 1⟩ : CState).frameInterval = some 7
    ∧ isPendingS (clearOp ⟨some 7, some 1⟩).1 = false
    ∧ (clearOp ⟨some 7, some 1⟩).2 = [7]
    ∧ pendingTrace (clearOp ⟨some 7, some 1⟩).2 7 Option.none 16 clockOne
        ⟨[entryPlain], []⟩ 0 = [] := by
  have h := clear_cancels_pending ⟨some 7, some 1⟩ 7 hostTwo optsPlain
    Option.none 16 clockOne ⟨[entryPlain], []⟩ ⟨[], []⟩ 0 rfl (by decide)
  exact ⟨rfl, h.1, h.2.1, h.2.2.1⟩

/-- C9 (amended).  The count-budgeted scheduler replaces a zero, negative
or non-numeric `asyncMax` by the documented default 1000 and then behaves
identically to a crawl configured with that default; the time-budgeted
scheduler of `src/font-crawler.js` performs no such substitution for a zero
(or invalid) `asyncIntervalDuration` — the crawl still completes without
error and delivers the same final map as the synchronous crawl, but under a
different frame schedule (see the counterexample). -/
theorem budget_fallback (opt : BudgetOpt) (entries : List Entry)
    (h : isInvalidAsyncMax opt = true) (host : Host) (opts : Options)
    (clock : Nat → Rat) :
    crawlAsyncA entries opt = crawlAsyncA entries (BudgetOpt.num 1000)
    ∧ (crawlAsyncRun host opts clock).2
        = (getEntries host opts).foldl (recordStep opts.excludeFontFamilies) [] := by
  constructor
  · have heff : effectiveAsyncMax opt = 1000 := by
      cases opt with
      | num n =>
          simp only [isInvalidAsyncMax, decide_eq_true_eq] at h
          simp [effectiveAsyncMax, h]
      | nonNum => rfl
    have heff2 : effectiveAsyncMax (BudgetOpt.num 1000) = 1000 := by
      norm_num [effectiveAsyncMax]
    simp [crawlAsyncA, heff, heff2]
  · unfold crawlAsyncRun runFrames
    rw [runFramesFuel_snd _ _ _ _ _ _ _ (by omega), getEntriesAsync_fst]

/-- Witness for C9's amended statement at a concrete invalid budget. -/
theorem budget_fallback_witness :
    isInvalidAsyncMax (BudgetOpt.num 0) = true
    ∧ crawlAsyncA [entryPlain] (BudgetOpt.num 0)
      = crawlAsyncA [entryPlain] (BudgetOpt.num 1000) := by
  refine ⟨by decide, ?_⟩
  exact (budget_fallback (BudgetOpt.num 0) [entryPlain] (by decide) hostTwo
    optsPlain clockOne).1

/-- C9 counterexample.  On a two-entry crawl under a constant clock, a zero
`asyncIntervalDuration` spans three animation frames (one entry per frame)
while the documented default 16 spans two: the zero budget is not replaced
by the default and the crawl does not behave identically to the
default-configured one. -/
theorem interval_zero_not_default :
    countFrames (crawlAsyncRun hostTwo optsZeroDur clockOne).1 = 3
    ∧ countFrames (crawlAsyncRun hostTwo optsPlain clockOne).1 = 2
    ∧ optsZeroDur.asyncIntervalDuration = 0
    ∧ optsPlain.asyncIntervalDuration = 16 := by
  have hne : ((1 : Rat) ≠ 0) := by norm_num
  have hq0 : ¬((1 : Rat) - 1 < 0 / 1000) := by norm_num
  have hq16 : ((1 : Rat) - 1 < 16 / 1000) := by norm_num
  refine ⟨?_, ?_, rfl, rfl⟩
  · simp [crawlAsyncRun, runFrames, runFramesFuel, asyncCallback, tsTruthy,
      tsVal, clockOne, hne, hq0, countFrames, isFrameEv, getEntriesAsync,
      delayExec, getEntries, querySelectorElements, filterElements,
      mapElementsAsEntries, usePseudoElementEntries, filterEntries, optsZeroDur,
      hostTwo, keepElement, pseudoTruthy]
  · simp [crawlAsyncRun, runFrames, runFramesFuel, asyncCallback, tsTruthy,
      tsVal, clockOne, hne, hq16, countFrames, isFrameEv, getEntriesAsync,
      delayExec, getEntries, querySelectorElements, filterElements,
      mapElementsAsEntries, usePseudoElementEntries, filterEntries, optsPlain,
      hostTwo, keepElement, pseudoTruthy]
